import Mathlib

/-!
A verification development for the nbdns DNS relay.

Go strings are modelled as lists of characters (`Str`), Go slices as
lists, Go maps used as seen-sets as lists of keys, and Go `time.Time`
values as integer second counts.  Functions are translated from the
repository sources; each definition's doc comment names the Go function
it embeds.  Mutation in the Go code is rendered by explicit value
passing, and Go panics are rendered by `Option` results (`none` =
panic).
-/

namespace Nbdns

/-- Go `string`, modelled as its character sequence. -/
abbrev Str := List Char

/-- Coerce a Lean string literal to the Go-string model. -/
def str (s : String) : Str := s.data

/-- Go `strings.Split(s, ".")`: split on every dot; `Split("", ".")`
returns `[""]`, a trailing dot yields a trailing empty label. -/
def splitDot : Str → List Str
  | [] => [[]]
  | c :: rest =>
    if c = '.' then [] :: splitDot rest
    else
      match splitDot rest with
      | [] => [[c]]
      | l :: ls => (c :: l) :: ls

/-- Go `strings.HasSuffix(s, ".")`. -/
def hasSuffixDot (s : Str) : Bool := s.getLast? == some '.'

/-- `utils.ParseRules` (src/pkg/utils/utils.go): drop empty pattern
strings, append a trailing dot when missing, split each pattern on
dots. -/
def ParseRules (rulesRaw : List Str) : List (List Str) :=
  rulesRaw.filterMap fun r =>
    if r = [] then none
    else some (splitDot (if hasSuffixDot r then r else r ++ ['.']))

/-- The inner label walk of `utils.HasMatchedRule`, on the *reversed*
rule and domain label lists: walk both from the right while in range;
a rule label mismatching a domain label while non-empty aborts the
rule (`continue OUTER`). -/
def labelsMatch : List Str → List Str → Bool
  | mi :: ms, dj :: ds => (mi == dj || mi == []) && labelsMatch ms ds
  | _, _ => true

/-- One rule of `utils.HasMatchedRule`: after the walk, `i == -1` iff
the rule is no longer than the domain; the post-loop check rejects
when the domain has labels left (`j != -1`), the rule is exhausted
(`i == -1`) and the rule's leading label is non-empty.  (Go reads
`m[0]` there; `ParseRules` never produces an empty rule, so the
`headD` default is unreachable on rules built by `ParseRules`.) -/
def ruleMatches (m d : List Str) : Bool :=
  labelsMatch m.reverse d.reverse
    && decide (m.length ≤ d.length)
    && !(decide (m.length < d.length) && m.headD [] != [])

/-- `utils.HasMatchedRule` (src/pkg/utils/utils.go): a domain matches
if any rule matches; the Go loop breaks at the first match. -/
def HasMatchedRule (rules : List (List Str)) (domain : Str) : Bool :=
  rules.any fun m => ruleMatches m (splitDot domain)

example : HasMatchedRule (ParseRules [str "."]) (str "a.com.") = true := by decide
example : HasMatchedRule (ParseRules [str "."]) (str "") = false := by decide
example : HasMatchedRule (ParseRules [str ""]) (str "b.a.com.") = false := by decide
example : HasMatchedRule (ParseRules [str "a.com."]) (str "a.com.") = true := by decide
example : HasMatchedRule (ParseRules [str "a.com."]) (str "b.a.com.") = false := by decide
example : HasMatchedRule (ParseRules [str ".a.com."]) (str "a.com.") = false := by decide
example : HasMatchedRule (ParseRules [str ".a.com."]) (str "b.a.com.") = true := by decide
example : HasMatchedRule (ParseRules [str ".a.com."]) (str "d.b.a.com.") = true := by decide
example : HasMatchedRule (ParseRules [str ".a.com."]) (str ".b.a.com.cn.") = false := by decide
example : HasMatchedRule (ParseRules [str "b.d.com."]) (str "b.d.a.com.") = false := by decide
example : HasMatchedRule (ParseRules [str "b.d.com."]) (str ".c.d.com.") = false := by decide

/-- An IP address (`net.IP`): a well-formed IPv4 or IPv6 address.
(`cidranger.Ranger.Contains` can only fail on a malformed `net.IP`;
this type has no malformed values, but the error branch is still
modelled, see `Upstream.ranger`.) -/
inductive IpAddr where
  | v4 (a b c d : Nat)
  | v6 (segs : List Nat)
deriving DecidableEq, Repr

/-- Rendering of `net.IP.String()` used in deduplication keys. -/
def IpAddr.render : IpAddr → Str
  | .v4 a b c d =>
    (Nat.repr a).data ++ ['.'] ++ (Nat.repr b).data ++ ['.']
      ++ (Nat.repr c).data ++ ['.'] ++ (Nat.repr d).data
  | .v6 segs => (segs.map fun s => (Nat.repr s).data ++ [':']).flatten

/-- `dns.RR_Header`: owner name, type code, class, TTL. -/
structure RRHeader where
  name : Str
  rrtype : Nat
  class' : Nat
  ttl : Nat
deriving DecidableEq, Repr

/-- EDNS0 options carried by an OPT pseudo-record
(`dns.EDNS0_SUBNET` and others). -/
inductive Edns0Option where
  | subnet (address : IpAddr) (sourceScope : Nat)
  | other (code : Nat)
deriving DecidableEq, Repr

/-- The concrete Go struct behind a `dns.RR` interface value, as
discriminated by the type switches in the sources (`*dns.A`,
`*dns.AAAA`, `*dns.CNAME`, `*dns.MX`, `*dns.NS`, `*dns.PTR`,
`*dns.TXT`, `*dns.SRV`, `*dns.SOA`, `*dns.RRSIG`, `*dns.OPT`, and a
fallback carrying the record's `String()` form). -/
inductive RData where
  | a (ip : IpAddr)
  | aaaa (ip : IpAddr)
  | cname (target : Str)
  | mx (preference : Nat) (mx : Str)
  | ns (ns : Str)
  | ptr (ptr : Str)
  | txt (txt : List Str)
  | srv (priority weight port : Nat) (target : Str)
  | soa (ns mbox : Str)
  | rrsig (expiration : Nat)
  | opt (options : List Edns0Option)
  | other (repr : Str)
deriving DecidableEq, Repr

/-- A resource record: header plus concrete data.  (Parsed messages
never hold nil `dns.RR` interface values or nil headers, so the
`rr == nil` / `header == nil` guards in the sources are dead here.) -/
structure RR where
  hdr : RRHeader
  rdata : RData
deriving DecidableEq, Repr

/-- `dns.Question`. -/
structure Question where
  name : Str
  qtype : Nat
  qclass : Nat
deriving DecidableEq, Repr

/-- `dns.Msg`: the header fields the sources read or write, plus the
question and record sections. -/
structure Msg where
  id : Nat
  response : Bool
  opcode : Nat
  recursionDesired : Bool
  checkingDisabled : Bool
  rcode : Nat
  question : List Question
  answer : List RR
  ns : List RR
  extra : List RR
deriving DecidableEq, Repr

/-- DNS constants from the miekg/dns package. -/
def TypeA : Nat := 1
def TypeCNAME : Nat := 5
def TypeSOA : Nat := 6
def TypeAAAA : Nat := 28
def TypeOPT : Nat := 41
def TypeRRSIG : Nat := 46
def RcodeSuccess : Nat := 0
def RcodeFormatError : Nat := 1
def RcodeServerFailure : Nat := 2
def RcodeNameError : Nat := 3

/-- `model.GetDomainNameFromDnsMsg` (src/unnamed/part_011): empty
string when the message has no question, else the first question's
name.  (The `msg == nil` guard is dead: callers pass parsed
messages.) -/
def GetDomainNameFromDnsMsg (m : Msg) : Str :=
  match m.question with
  | [] => []
  | q :: _ => q.name

/-- `model.Upstream` (src/unnamed/part_011), restricted to the fields
`IsValidMsg` reads: the class label, the blacklist rule tree from the
shared config (`up.config.BlacklistSplited`), and the CIDR membership
trie (`up.ipRanger`).  `Contains` is modelled as a function returning
`none` on a lookup error and `some b` for membership `b`. -/
structure Upstream where
  isPrimary : Bool
  blacklistSplited : List (List Str)
  ranger : IpAddr → Option Bool

/-- The type-assertion chain of `Upstream.IsValidMsg`: the address of
an `*dns.A` or `*dns.AAAA` answer, `none` otherwise. -/
def answerAddr (rr : RR) : Option IpAddr :=
  match rr.rdata with
  | .a ip => some ip
  | .aaaa ip => some ip
  | _ => none

/-- The per-answer loop of `Upstream.IsValidMsg`: non-address answers
and failed ranger lookups are skipped; an answer whose address is in
the primary set while the domain is blacklisted, or outside the
primary set while the upstream is primary, invalidates the whole
message. -/
def isValidAnswers (up : Upstream) (inBlacklist : Bool) : List RR → Bool
  | [] => true
  | rr :: rest =>
    match answerAddr rr with
    | none => isValidAnswers up inBlacklist rest
    | some ip =>
      match up.ranger ip with
      | none => isValidAnswers up inBlacklist rest
      | some ipIsPrimary =>
        if inBlacklist && ipIsPrimary then false
        else if up.isPrimary && !ipIsPrimary then false
        else isValidAnswers up inBlacklist rest

/-- `Upstream.IsValidMsg` (src/unnamed/part_011 lines 175-208): run
the per-answer loop, then require a primary upstream to have returned
at least one answer. -/
def Upstream.IsValidMsg (up : Upstream) (r : Msg) : Bool :=
  let domain := GetDomainNameFromDnsMsg r
  let inBlacklist := HasMatchedRule up.blacklistSplited domain
  isValidAnswers up inBlacklist r.answer
    && (!up.isPrimary || decide (r.answer.length > 0))

/-- An all-defaults message, from which test messages are built. -/
def baseMsg : Msg :=
  { id := 0, response := false, opcode := 0, recursionDesired := false,
    checkingDisabled := false, rcode := 0, question := [], answer := [],
    ns := [], extra := [] }

/-- An `*dns.A` answer record. -/
def mkA (name : Str) (ttl : Nat) (ip : IpAddr) : RR :=
  { hdr := { name := name, rrtype := TypeA, class' := 1, ttl := ttl },
    rdata := .a ip }

/-- The ranger of `TestIsValidMsgWithPrivateIP`
(src/internal/model/upstream_test.go): a trie holding only
`1.0.0.0/8`. -/
def rangerOnly1Slash8 : IpAddr → Option Bool := fun ip =>
  match ip with
  | .v4 a _ _ _ => some (a == 1)
  | .v6 _ => some false

/-- The primary upstream of that test: empty blacklist, the
`1.0.0.0/8` trie. -/
def upstreamPrimary1Slash8 : Upstream :=
  { isPrimary := true, blacklistSplited := [], ranger := rangerOnly1Slash8 }

/-- The test message: question `example.com. A`, single answer
`A 10.0.0.1` (a private RFC1918 address outside the trie). -/
def msgPrivate10 : Msg :=
  { baseMsg with
      question := [{ name := str "example.com.", qtype := TypeA, qclass := 1 }],
      answer := [mkA (str "example.com.") 300 (.v4 10 0 0 1)] }

/-- C1: the claim says a private-range A answer (here `10.0.0.1`,
which the CIDR trie does not contain) is exempt from the primary-zone
rule, so a primary upstream whose only answer is such an address
yields a valid message.  The shipped `Upstream.IsValidMsg`
(src/unnamed/part_011) has no private-address exemption: the primary
upstream's `10.0.0.1` answer trips the `up.IsPrimary && !isPrimary`
rejection and the message is invalid — contradicting the repository's
own test `TestIsValidMsgWithPrivateIP`, which expects `true` on this
exact input (and whose companion `TestIsPrivateIP` tests an
`isPrivateIP` function that exists nowhere in the sources). -/
theorem c1_code_rejects_private_answer :
    upstreamPrimary1Slash8.ranger (.v4 10 0 0 1) = some false ∧
    Upstream.IsValidMsg upstreamPrimary1Slash8 msgPrivate10 = false :=
  ⟨rfl, rfl⟩

/-- If some answer's address is in the primary set while the domain is
blacklisted, the per-answer loop rejects. -/
theorem isValidAnswers_false_of_blacklisted_primary_ip
    (up : Upstream) (l : List RR)
    (h : ∃ rr ∈ l, ∃ ip, answerAddr rr = some ip ∧ up.ranger ip = some true) :
    isValidAnswers up true l = false := by
  induction l with
  | nil => obtain ⟨rr, hmem, _⟩ := h; simp at hmem
  | cons rr rest ih =>
    obtain ⟨rr', hmem, ip', hip', hcont⟩ := h
    rcases List.mem_cons.mp hmem with heq | hmem
    · subst heq
      simp [isValidAnswers, hip', hcont]
    · have tail := ih ⟨rr', hmem, ip', hip', hcont⟩
      cases haddr : answerAddr rr with
      | none => simp [isValidAnswers, haddr, tail]
      | some ip =>
        cases hrng : up.ranger ip with
        | none => simp [isValidAnswers, haddr, hrng, tail]
        | some p =>
          cases p <;> cases hb : up.isPrimary <;>
            simp [isValidAnswers, haddr, hrng, hb, tail]

/-- If the upstream is primary and some answer's address is outside
the primary set, the per-answer loop rejects (for any blacklist
verdict). -/
theorem isValidAnswers_false_of_primary_foreign_ip
    (up : Upstream) (l : List RR) (inB : Bool)
    (hup : up.isPrimary = true)
    (h : ∃ rr ∈ l, ∃ ip, answerAddr rr = some ip ∧ up.ranger ip = some false) :
    isValidAnswers up inB l = false := by
  induction l with
  | nil => obtain ⟨rr, hmem, _⟩ := h; simp at hmem
  | cons rr rest ih =>
    obtain ⟨rr', hmem, ip', hip', hcont⟩ := h
    rcases List.mem_cons.mp hmem with heq | hmem
    · subst heq
      simp [isValidAnswers, hip', hcont, hup]
    · have tail := ih ⟨rr', hmem, ip', hip', hcont⟩
      cases haddr : answerAddr rr with
      | none => simp [isValidAnswers, haddr, tail]
      | some ip =>
        cases hrng : up.ranger ip with
        | none => simp [isValidAnswers, haddr, hrng, tail]
        | some p =>
          cases p <;> cases inB <;>
            simp [isValidAnswers, haddr, hrng, hup, tail]

/-- C2: `Upstream.IsValidMsg` returns false when some A/AAAA answer's
address is in the primary CIDR set while the question name matches
the blacklist, or when the upstream is primary and some A/AAAA
answer's address is outside the primary set; a primary upstream with
zero answers is invalid and a non-primary upstream with zero answers
is valid — exactly as the code at src/unnamed/part_011 lines 175-208
behaves. -/
theorem c2_isValidMsg_rejection_rules (up : Upstream) (r : Msg) :
    ((HasMatchedRule up.blacklistSplited (GetDomainNameFromDnsMsg r) = true ∧
        ∃ rr ∈ r.answer, ∃ ip, answerAddr rr = some ip ∧ up.ranger ip = some true) →
      up.IsValidMsg r = false)
    ∧ ((up.isPrimary = true ∧
        ∃ rr ∈ r.answer, ∃ ip, answerAddr rr = some ip ∧ up.ranger ip = some false) →
      up.IsValidMsg r = false)
    ∧ (up.isPrimary = true → r.answer = [] → up.IsValidMsg r = false)
    ∧ (up.isPrimary = false → r.answer = [] → up.IsValidMsg r = true) := by
  refine ⟨fun ⟨hbl, hex⟩ => ?_, fun ⟨hup, hex⟩ => ?_, fun hup hans => ?_,
    fun hup hans => ?_⟩
  · simp only [Upstream.IsValidMsg]
    rw [hbl, isValidAnswers_false_of_blacklisted_primary_ip up r.answer hex]
    simp
  · simp only [Upstream.IsValidMsg]
    rw [isValidAnswers_false_of_primary_foreign_ip up r.answer _ hup hex]
    simp
  · simp only [Upstream.IsValidMsg]
    rw [hans, hup]
    simp [isValidAnswers]
  · simp only [Upstream.IsValidMsg]
    rw [hans, hup]
    simp [isValidAnswers]

/-- A blacklisted-domain fixture for the C2 witness: the question
name is on the blacklist and the single answer's address lies inside
the primary set. -/
def upstreamBlacklistW : Upstream :=
  { isPrimary := false, blacklistSplited := ParseRules [str "bad.com."],
    ranger := fun _ => some true }

/-- `bad.com. A` response carrying one A answer. -/
def msgBadCom : Msg :=
  { baseMsg with
      question := [{ name := str "bad.com.", qtype := TypeA, qclass := 1 }],
      answer := [mkA (str "bad.com.") 60 (.v4 1 2 3 4)] }

/-- A primary upstream whose ranger contains nothing. -/
def upstreamPrimaryEmptyRanger : Upstream :=
  { isPrimary := true, blacklistSplited := [], ranger := fun _ => some false }

/-- A non-primary upstream with an empty ranger. -/
def upstreamFreedomW : Upstream :=
  { isPrimary := false, blacklistSplited := [], ranger := fun _ => some false }

/-- `example.com. A` query with no answers. -/
def msgNoAnswers : Msg :=
  { baseMsg with
      question := [{ name := str "example.com.", qtype := TypeA, qclass := 1 }] }

/-- Witness for C2: each rejection rule fires on a concrete input. -/
theorem c2_isValidMsg_rejection_rules_witness :
    Upstream.IsValidMsg upstreamBlacklistW msgBadCom = false ∧
    Upstream.IsValidMsg upstreamPrimaryEmptyRanger msgBadCom = false ∧
    Upstream.IsValidMsg upstreamPrimaryEmptyRanger msgNoAnswers = false ∧
    Upstream.IsValidMsg upstreamFreedomW msgNoAnswers = true := by
  refine ⟨(c2_isValidMsg_rejection_rules upstreamBlacklistW msgBadCom).1
      ⟨by decide, mkA (str "bad.com.") 60 (.v4 1 2 3 4), by simp [msgBadCom],
        .v4 1 2 3 4, rfl, rfl⟩,
    (c2_isValidMsg_rejection_rules upstreamPrimaryEmptyRanger msgBadCom).2.1
      ⟨rfl, mkA (str "bad.com.") 60 (.v4 1 2 3 4), by simp [msgBadCom],
        .v4 1 2 3 4, rfl, rfl⟩,
    (c2_isValidMsg_rejection_rules upstreamPrimaryEmptyRanger msgNoAnswers).2.2.1
      rfl rfl,
    (c2_isValidMsg_rejection_rules upstreamFreedomW msgNoAnswers).2.2.2
      rfl rfl⟩

/-- Go `strings.Join(xs, "|")`. -/
def joinPipe : List Str → Str
  | [] => []
  | [s] => s
  | s :: rest => s ++ '|' :: joinPipe rest

/-- The fallback `rr.String()` used by `uniqueAnswer` for record types
outside its switch: any injective rendering of the record. -/
def rrString (rr : RR) : Str := (reprStr rr).data

/-- The deduplication key built by `uniqueAnswer`
(src/internal/handler/handler.go lines 440-497): owner name + type
tag + type-specific canonical rdata, `rr.String()` for other types. -/
def uniqueKey (rr : RR) : Str :=
  match rr.rdata with
  | .a ip => rr.hdr.name ++ str "|A|" ++ ip.render
  | .aaaa ip => rr.hdr.name ++ str "|AAAA|" ++ ip.render
  | .cname t => rr.hdr.name ++ str "|CNAME|" ++ t
  | .mx pref mx => rr.hdr.name ++ str "|MX|" ++ (Nat.repr pref).data ++ ['|'] ++ mx
  | .ns n => rr.hdr.name ++ str "|NS|" ++ n
  | .ptr p => rr.hdr.name ++ str "|PTR|" ++ p
  | .txt ts => rr.hdr.name ++ str "|TXT|" ++ joinPipe ts
  | .srv pr w po t =>
    rr.hdr.name ++ str "|SRV|" ++ (Nat.repr pr).data ++ ['|']
      ++ (Nat.repr w).data ++ ['|'] ++ (Nat.repr po).data ++ ['|'] ++ t
  | .soa ns mbox => rr.hdr.name ++ str "|SOA|" ++ ns ++ ['|'] ++ mbox
  | .rrsig _ => rrString rr
  | .opt _ => rrString rr
  | .other _ => rrString rr

/-- The seen-map loop of `uniqueAnswer`: keep a record iff its key was
not seen before, in input order. -/
def uniqueGo (seen : List Str) : List RR → List RR
  | [] => []
  | rr :: rest =>
    let key := uniqueKey rr
    if key ∈ seen then uniqueGo seen rest
    else rr :: uniqueGo (key :: seen) rest

/-- `uniqueAnswer` (src/internal/handler/handler.go lines 422-506):
deduplicate answer records by `uniqueKey`, first occurrence wins. -/
def uniqueAnswer (records : List RR) : List RR :=
  if records = [] then records else uniqueGo [] records

/-- The seen-map loop is idempotent for any initial seen set. -/
theorem uniqueGo_idem (xs : List RR) :
    ∀ seen, uniqueGo seen (uniqueGo seen xs) = uniqueGo seen xs := by
  induction xs with
  | nil => intro seen; rfl
  | cons rr rest ih =>
    intro seen
    by_cases hk : uniqueKey rr ∈ seen
    · simp only [uniqueGo, if_pos hk]
      exact ih seen
    · simp only [uniqueGo, if_neg hk]
      rw [ih (uniqueKey rr :: seen)]

/-- The seen-map loop only drops records, preserving relative
order. -/
theorem uniqueGo_sublist (xs : List RR) :
    ∀ seen, (uniqueGo seen xs).Sublist xs := by
  induction xs with
  | nil => intro seen; exact List.Sublist.refl []
  | cons rr rest ih =>
    intro seen
    by_cases hk : uniqueKey rr ∈ seen
    · simp only [uniqueGo, if_pos hk]
      exact (ih seen).cons rr
    · simp only [uniqueGo, if_neg hk]
      exact (ih (uniqueKey rr :: seen)).cons₂ rr

/-- C10: deduplication of merged answers is idempotent —
`uniqueAnswer (uniqueAnswer xs) = uniqueAnswer xs` for every record
list — and `uniqueAnswer` keeps a subsequence of its input (first
record per key wins, relative order preserved). -/
theorem c10_uniqueAnswer_idempotent (xs : List RR) :
    uniqueAnswer (uniqueAnswer xs) = uniqueAnswer xs ∧
    (uniqueAnswer xs).Sublist xs := by
  cases xs with
  | nil => exact ⟨rfl, List.Sublist.refl []⟩
  | cons rr rest =>
    have hne : uniqueAnswer (rr :: rest) = uniqueGo [] (rr :: rest) := by
      simp [uniqueAnswer]
    constructor
    · rw [hne]
      have hgo : uniqueGo [] (rr :: rest) =
          rr :: uniqueGo [uniqueKey rr] rest := by
        simp [uniqueGo]
      rw [hgo, uniqueAnswer, if_neg (by simp)]
      rw [← hgo, uniqueGo_idem (rr :: rest) []]
    · rw [hne]
      exact uniqueGo_sublist (rr :: rest) []

/-- `Msg.IsEdns0` (miekg/dns): scan `Extra` from the end for the first
record of type OPT. -/
def isEdns0 (m : Msg) : Option RR :=
  m.extra.reverse.find? fun rr => rr.hdr.rrtype == TypeOPT

/-- `OPT.Do()` (miekg/dns): the DNSSEC-OK bit, bit 15 of the OPT
header's TTL field. -/
def optDo (rr : RR) : Bool := rr.hdr.ttl &&& 32768 != 0

/-- The options list of an OPT record.  (miekg/dns casts the record to
`*dns.OPT`; for parsed messages a header-typed OPT is always a
`*dns.OPT`, so the default branch is dead.) -/
def optOptions (rr : RR) : List Edns0Option :=
  match rr.rdata with
  | .opt options => options
  | _ => []

/-- The in-place option filter of `Handler.removeEDNS`: drop every
`*dns.EDNS0_SUBNET` option, keep the rest in order. -/
def stripSubnet (rr : RR) : RR :=
  match rr.rdata with
  | .opt options =>
    { rr with rdata := .opt (options.filter fun o =>
        match o with
        | .subnet _ _ => false
        | _ => true) }
  | _ => rr

/-- Apply `stripSubnet` to the record `IsEdns0` found (the last OPT of
the section); walks the reversed list. -/
def stripFirstOptRev : List RR → List RR
  | [] => []
  | rr :: rest =>
    if rr.hdr.rrtype == TypeOPT then stripSubnet rr :: rest
    else rr :: stripFirstOptRev rest

/-- `Handler.removeEDNS` (src/internal/handler/handler.go lines
107-125): remove the EDNS Client Subnet option from the request's OPT
record, if any. -/
def removeEDNS (req : Msg) : Msg :=
  match isEdns0 req with
  | none => req
  | some _ => { req with extra := (stripFirstOptRev req.extra.reverse).reverse }

/-- `Msg.SetReply` (miekg/dns defaults.go): set the id from the
request, mark as response, copy the opcode (plus RD/CD for queries),
reset the rcode to `RcodeSuccess`, and copy the request's first
question when present. -/
def setReply (resp req : Msg) : Msg :=
  { resp with
      id := req.id,
      response := true,
      opcode := req.opcode,
      recursionDesired :=
        if req.opcode = 0 then req.recursionDesired else resp.recursionDesired,
      checkingDisabled :=
        if req.opcode = 0 then req.checkingDisabled else resp.checkingDisabled,
      rcode := RcodeSuccess,
      question :=
        match req.question with
        | [] => resp.question
        | q :: _ => [q] }

/-- The merge loop of `Handler.exchange` (src/internal/handler/
handler.go lines 142-153): the first non-nil message wins, later
non-nil messages contribute their answers. -/
def mergeLoop : Option Msg → List (Option Msg) → Option Msg
  | res, [] => res
  | res, none :: rest => mergeLoop res rest
  | none, some m :: rest => mergeLoop (some m) rest
  | some r, some m :: rest =>
    mergeLoop (some { r with answer := r.answer ++ m.answer }) rest

/-- The tail of `Handler.exchange` (src/internal/handler/handler.go
lines 142-163): merge the strategy's messages; synthesize a
`SERVFAIL` when every upstream failed, otherwise deduplicate the
merged answers. -/
def mergeMsgs (msgs : List (Option Msg)) : Msg :=
  match mergeLoop none msgs with
  | none => { baseMsg with rcode := RcodeServerFailure }
  | some r => { r with answer := uniqueAnswer r.answer }

/-- `getDnsRequestCacheKey` (src/internal/handler/handler.go lines
166-182): `name#qtype#dnssec`.  Go reads `m.Question[0].Qtype` with no
bounds check; a message with an empty Question section panics, which
this model renders as `none`. -/
def getDnsRequestCacheKey (m : Msg) : Option Str :=
  let dnssec : Str :=
    match isEdns0 m with
    | some o => if optDo o then str "DO" else []
    | none => []
  match m.question with
  | [] => none
  | q :: _ =>
    some (GetDomainNameFromDnsMsg m ++ ['#'] ++ (Nat.repr q.qtype).data
      ++ ['#'] ++ dnssec)

/-- `getDnsResponseTtl` (src/internal/handler/handler.go lines
184-195): the **first** answer's TTL (0 when there is no answer),
clamped below at 60 and above at 3600, in seconds. -/
def getDnsResponseTtl (m : Msg) : Nat :=
  let ttl :=
    match m.answer with
    | [] => 0
    | rr :: _ => rr.hdr.ttl
  if ttl < 60 then 60 else if ttl > 3600 then 3600 else ttl

/-- `shouldCacheResponse` (src/internal/handler/handler.go lines
198-212). -/
def shouldCacheResponse (m : Msg) : Bool :=
  if m.rcode = RcodeServerFailure then false
  else if m.rcode = RcodeFormatError then false
  else m.rcode == RcodeSuccess || m.rcode == RcodeNameError

/-- Go `strings.ToLower` on the ASCII alphabet used by DNS names. -/
def strToLower (s : Str) : Str := s.map Char.toLower

/-- Go `strings.TrimSuffix(s, ".")`. -/
def trimSuffixDot (s : Str) : Str := if hasSuffixDot s then s.dropLast else s

/-- Go `strings.EqualFold` (ASCII model). -/
def eqFold (a b : Str) : Bool := strToLower a == strToLower b

/-- `validateResponse` (src/internal/handler/handler.go lines
216-295): anti-poisoning validation.  The `resp == nil` branch is
dead here because `Handler.exchange` always yields a message; the
high-TTL loop only warns and is omitted.  Non-CNAME answers with
owners outside the CNAME chain are warned about but accepted. -/
def validateResponse (req resp : Msg) : Bool :=
  match req.question, resp.question with
  | [], _ => true
  | _ :: _, [] => true
  | rq :: _, pq :: _ =>
    if !eqFold rq.name pq.name then false
    else if rq.qtype != pq.qtype then false
    else if rq.qclass != pq.qclass then false
    else
      let requestDomain := strToLower (trimSuffixDot rq.name)
      let validDomains := requestDomain :: resp.answer.filterMap fun a =>
        if a.hdr.rrtype == TypeCNAME then
          match a.rdata with
          | .cname target => some (strToLower (trimSuffixDot target))
          | _ => none
        else none
      resp.answer.all fun a =>
        let answerDomain := strToLower (trimSuffixDot a.hdr.name)
        if answerDomain ∈ validDomains then true
        else if a.hdr.rrtype == TypeCNAME then answerDomain == requestDomain
        else true

/-- The `updateRRs` closure of `replyUpdateTtl` (src/internal/handler/
handler.go lines 681-702): drop expired RRSIGs, set every kept
record's TTL. -/
def updateRRs (u32now ttl : Nat) (rrs : List RR) : List RR :=
  rrs.filterMap fun rr =>
    match rr.rdata with
    | .rrsig expiration =>
      if expiration > 0 && u32now > expiration then none
      else some { rr with hdr := { rr.hdr with ttl := ttl } }
    | _ => some { rr with hdr := { rr.hdr with ttl := ttl } }

/-- The Extra-section loop of `replyUpdateTtl` (src/internal/handler/
handler.go lines 709-746): OPT records keep their TTL field but get
the client's UDP size (`SetUDPSize` writes `Hdr.Class`) and a cleared
ECS scope; other records are treated like `updateRRs`. -/
def updateExtra (u32now ttl : Nat) (reqOpt : Option RR) (rrs : List RR) :
    List RR :=
  rrs.filterMap fun rr =>
    match rr.rdata with
    | .opt options =>
      let rr1 :=
        match reqOpt with
        | some ro => { rr with hdr := { rr.hdr with class' := ro.hdr.class' } }
        | none => rr
      some { rr1 with rdata := .opt (options.map fun o =>
        match o with
        | .subnet address _ => .subnet address 0
        | o => o) }
    | .rrsig expiration =>
      if expiration > 0 && u32now > expiration then none
      else some { rr with hdr := { rr.hdr with ttl := ttl } }
    | _ => some { rr with hdr := { rr.hdr with ttl := ttl } }

/-- `replyUpdateTtl` (src/internal/handler/handler.go lines 677-750):
rewrite a cached response for a client — update TTLs, drop expired
RRSIGs, fix the OPT UDP size and ECS scope, then `SetReply`.
`uint32(time.Now().Unix())` is the Unix time truncated to 32 bits. -/
def replyUpdateTtl (now : Int) (req resp : Msg) (ttl : Nat) : Msg :=
  let u32now := (now % 4294967296).toNat
  let reqOpt := isEdns0 req
  let resp1 :=
    { resp with
        answer := updateRRs u32now ttl resp.answer,
        ns := updateRRs u32now ttl resp.ns,
        extra := updateExtra u32now ttl reqOpt resp.extra }
  setReply resp1 req

/-- `cache.CachedMsg` (src/internal/cache): a response with its
absolute DNS-level expiry (Unix seconds). -/
structure CachedMsg where
  msg : Msg
  expires : Int
deriving DecidableEq, Repr

/-- The environment `Handler.HandleDnsMsg` runs in: whether
`builtInCache` is non-nil, the cache's `Get`, the current time, and
the racing strategy's result vector (the `msgs` slice produced by
`getTheFullestResults` / `getTheFastestResults` / `getAnyResult` on
the ECS-stripped request). -/
structure Env where
  cacheEnabled : Bool
  cacheGet : Str → Option CachedMsg
  now : Int
  strategy : Msg → List (Option Msg)

/-- The observable outcome of `Handler.HandleDnsMsg`: the reply plus
the `builtInCache.Set` call it performed, if any (key, entry,
store-level TTL in seconds). -/
structure HandleResult where
  reply : Msg
  stored : Option (Str × CachedMsg × Nat)
deriving DecidableEq, Repr

/-- `Handler.HandleDnsMsg` from the upstream exchange on
(src/internal/handler/handler.go lines 340-371): merge the strategy's
results; on `SERVFAIL` serve a (possibly stale) cached message
rewritten to TTL 12 when it has at least one answer; otherwise
`SetReply` and store the response when the cache is enabled and the
response is cacheable and validates. -/
def afterCache (env : Env) (req : Msg) (respCache : Option Msg)
    (cacheKey : Str) : HandleResult :=
  let req' := removeEDNS req
  let resp := mergeMsgs (env.strategy req')
  let staleReply : Option Msg :=
    if resp.rcode = RcodeServerFailure then
      match respCache with
      | some rc =>
        let msg := replyUpdateTtl env.now req' rc 12
        if msg.answer.length > 0 then some msg else none
      | none => none
    else none
  match staleReply with
  | some msg => { reply := msg, stored := none }
  | none =>
    let resp' := setReply resp req'
    let stored :=
      if env.cacheEnabled && shouldCacheResponse resp'
          && validateResponse req' resp' then
        let ttl := getDnsResponseTtl resp'
        some (cacheKey, CachedMsg.mk resp' (env.now + ttl), ttl + 3600)
      else none
    { reply := resp', stored := stored }

/-- `Handler.HandleDnsMsg` (src/internal/handler/handler.go lines
299-372).  Statistics recording has no effect on the reply and is
omitted.  `none` models the Go panic (`getDnsRequestCacheKey` indexes
`Question[0]` of a question-less request).  On a fresh cache hit the
rewritten copy is returned when it has answers; note `replyUpdateTtl`
mutates the copy in place, so an ignored fresh hit leaves the
rewritten message as the stale candidate. -/
def handleDnsMsg (env : Env) (req : Msg) : Option HandleResult :=
  if env.cacheEnabled then
    match getDnsRequestCacheKey req with
    | none => none
    | some cacheKey =>
      match env.cacheGet cacheKey with
      | some v =>
        let respCache := v.msg
        if env.now < v.expires then
          let msg :=
            replyUpdateTtl env.now req respCache ((v.expires - env.now).toNat)
          if msg.answer.length > 0 then some { reply := msg, stored := none }
          else afterCache env req (some msg) cacheKey
        else afterCache env req (some respCache) cacheKey
      | none => afterCache env req none cacheKey
  else afterCache env req none []

/-- An environment with the cache enabled, an empty cache, and a
single upstream that fails (its slot in the strategy's result vector
is nil). -/
def envAllUpstreamsFail : Env :=
  { cacheEnabled := true, cacheGet := fun _ => none, now := 1700000000,
    strategy := fun _ => [none] }

/-- C3: the claim says `HandleDnsMsg` totally returns a reply for
every incoming request, including one whose Question section is empty
with the cache enabled, because every `Question` indexing is in
bounds.  It is not: `getDnsRequestCacheKey` reads `m.Question[0]`
with no bounds check, and `HandleDnsMsg` calls it for every request
whenever the cache is enabled, so a request with an empty Question
section (QDCOUNT = 0 parses fine) panics — modelled as `none`.
(`matchedUpstreams` and `GetDomainNameFromDnsMsg` do guard
emptiness; the unguarded index is the slip.) -/
theorem c3_empty_question_panics :
    handleDnsMsg envAllUpstreamsFail baseMsg = none ∧ baseMsg.question = [] :=
  ⟨rfl, rfl⟩

/-- Modelled from the spec text of the cache TTL policy, for
comparison with `getDnsResponseTtl`: the **minimum** TTL over all
answer records (floor 60 s when there are none), clamped to
[60 s, 3600 s]. -/
def specMinAnswerTtl (m : Msg) : Nat :=
  let ttl :=
    match m.answer.map fun rr => rr.hdr.ttl with
    | [] => 60
    | t :: ts => ts.foldl min t
  if ttl < 60 then 60 else if ttl > 3600 then 3600 else ttl

/-- A request for `example.com. A`. -/
def reqExampleA : Msg :=
  { baseMsg with
      question := [{ name := str "example.com.", qtype := TypeA, qclass := 1 }] }

/-- An upstream answer for `example.com.` with two A records of TTLs
200 and 100. -/
def msgTwoTtls : Msg :=
  { baseMsg with
      question := [{ name := str "example.com.", qtype := TypeA, qclass := 1 }],
      answer := [mkA (str "example.com.") 200 (.v4 93 184 216 34),
                 mkA (str "example.com.") 100 (.v4 93 184 216 35)] }

/-- Cache enabled and empty; the single upstream returns
`msgTwoTtls`. -/
def envTwoTtls : Env :=
  { cacheEnabled := true, cacheGet := fun _ => none, now := 1700000000,
    strategy := fun _ => [some msgTwoTtls] }

/-- Counterexample for C4: on a response whose answers carry TTLs
[200, 100], the stored entry's expiry is `now + 200` — the *first*
answer's TTL — while the claim's minimum-based policy would give
100. -/
theorem c4_counterexample :
    ((handleDnsMsg envTwoTtls reqExampleA).bind HandleResult.stored).map
        (fun s => ((s.2.1.expires - envTwoTtls.now), specMinAnswerTtl s.2.1.msg))
      = some ((200 : Int), (100 : Nat)) := by
  decide

/-- Any entry `afterCache` stores expires `getDnsResponseTtl` seconds
from now and is handed to the store with that TTL plus one hour. -/
theorem afterCache_stored_spec (env : Env) (req : Msg)
    (respCache : Option Msg) (cacheKey k : Str) (cm : CachedMsg) (stl : Nat)
    (h : (afterCache env req respCache cacheKey).stored = some (k, cm, stl)) :
    cm.expires = env.now + (getDnsResponseTtl cm.msg : Nat)
    ∧ stl = getDnsResponseTtl cm.msg + 3600 := by
  unfold afterCache at h
  simp only [] at h
  split at h
  · simp at h
  · split at h
    · simp only [Option.some.injEq, Prod.mk.injEq] at h
      obtain ⟨-, hcm, hstl⟩ := h
      subst hcm
      subst hstl
      exact ⟨rfl, rfl⟩
    · simp at h

/-- `getDnsResponseTtl` in closed clamp form. -/
theorem getDnsResponseTtl_eq_clamp (m : Msg) :
    getDnsResponseTtl m =
      min 3600 (max 60 (match m.answer with
        | [] => 0
        | rr :: _ => rr.hdr.ttl)) := by
  unfold getDnsResponseTtl
  cases m.answer with
  | nil => simp
  | cons rr rest =>
    simp only
    by_cases h1 : rr.hdr.ttl < 60
    · rw [if_pos h1]; omega
    · rw [if_neg h1]
      by_cases h2 : rr.hdr.ttl > 3600
      · rw [if_pos h2]; omega
      · rw [if_neg h2]; omega

/-- C4 (amended): for every response stored in the cache, the entry's
expiry is `now` plus the DNS-level TTL, the store-level TTL adds one
hour on top, and that DNS-level TTL is the *first* answer record's
TTL (0 when there are no answers, so the 60 s floor applies) clamped
to [60 s, 3600 s]. -/
theorem c4_stored_ttl_is_first_answer_clamped (env : Env) (req : Msg)
    (res : HandleResult) (k : Str) (cm : CachedMsg) (stl : Nat)
    (hrun : handleDnsMsg env req = some res)
    (hst : res.stored = some (k, cm, stl)) :
    cm.expires = env.now + (getDnsResponseTtl cm.msg : Nat)
    ∧ getDnsResponseTtl cm.msg =
        min 3600 (max 60 (match cm.msg.answer with
          | [] => 0
          | rr :: _ => rr.hdr.ttl))
    ∧ stl = getDnsResponseTtl cm.msg + 3600 := by
  have key : ∀ respCache cacheKey,
      afterCache env req respCache cacheKey = res →
      cm.expires = env.now + (getDnsResponseTtl cm.msg : Nat)
        ∧ getDnsResponseTtl cm.msg =
            min 3600 (max 60 (match cm.msg.answer with
              | [] => 0
              | rr :: _ => rr.hdr.ttl))
        ∧ stl = getDnsResponseTtl cm.msg + 3600 := by
    intro respCache cacheKey heq
    obtain ⟨h1, h2⟩ := afterCache_stored_spec env req respCache cacheKey k cm stl
      (heq ▸ hst)
    exact ⟨h1, getDnsResponseTtl_eq_clamp cm.msg, h2⟩
  unfold handleDnsMsg at hrun
  simp only [] at hrun
  split at hrun
  · split at hrun
    · simp at hrun
    · split at hrun
      · split at hrun
        · split at hrun
          · cases Option.some.inj hrun
            simp at hst
          · exact key _ _ (Option.some.inj hrun)
        · exact key _ _ (Option.some.inj hrun)
      · exact key _ _ (Option.some.inj hrun)
  · exact key _ _ (Option.some.inj hrun)

/-- The result of the C4 witness run (it is a `some`, so `getD` is
immaterial). -/
def resTwoTtls : HandleResult :=
  (handleDnsMsg envTwoTtls reqExampleA).getD { reply := baseMsg, stored := none }

/-- The store operation of the C4 witness run. -/
def storedTwoTtls : Str × CachedMsg × Nat :=
  resTwoTtls.stored.getD ([], { msg := baseMsg, expires := 0 }, 0)

/-- Witness for C4 (amended): a concrete store whose entry expires
first-answer-TTL seconds (here 200, not the minimum 100) after
now. -/
theorem c4_stored_ttl_witness :
    storedTwoTtls.2.1.expires
        = envTwoTtls.now + (getDnsResponseTtl storedTwoTtls.2.1.msg : Nat)
    ∧ getDnsResponseTtl storedTwoTtls.2.1.msg =
        min 3600 (max 60 (match storedTwoTtls.2.1.msg.answer with
          | [] => 0
          | rr :: _ => rr.hdr.ttl))
    ∧ storedTwoTtls.2.2 = getDnsResponseTtl storedTwoTtls.2.1.msg + 3600 := by
  have h := c4_stored_ttl_is_first_answer_clamped envTwoTtls reqExampleA
    resTwoTtls storedTwoTtls.1 storedTwoTtls.2.1 storedTwoTtls.2.2
    (by rfl) (by rfl)
  exact h

/-- C5: the claim says a pipeline response is stored iff the cache is
enabled, its rcode is NOERROR or NXDOMAIN and it validates — in
particular a SERVFAIL is never stored.  The code violates this: with
every upstream failed the strategy yields a synthesized `SERVFAIL`
and no stale entry exists, yet `HandleDnsMsg` calls `resp.SetReply`
(miekg/dns, which resets `Rcode` to `RcodeSuccess`) *before*
`shouldCacheResponse`, so the cacheability test sees NOERROR and the
SERVFAIL response is stored (and even replied) with rcode NOERROR —
against `shouldCacheResponse`'s own documentation. -/
theorem c5_servfail_response_is_stored :
    (mergeMsgs (envAllUpstreamsFail.strategy (removeEDNS reqExampleA))).rcode
        = RcodeServerFailure ∧
    (handleDnsMsg envAllUpstreamsFail reqExampleA).map
        (fun res => (res.reply.rcode, res.stored.isSome))
      = some ((RcodeSuccess : Nat), true) := by
  exact ⟨rfl, rfl⟩

/-- An SOA record for the authority section of a negative answer. -/
def mkSOA (name : Str) (ttl : Nat) : RR :=
  { hdr := { name := name, rrtype := TypeSOA, class' := 1, ttl := ttl },
    rdata := .soa (str "ns1.example.com.") (str "admin.example.com.") }

/-- The cache key of `reqExampleA`: `example.com.#1#`. -/
def keyExampleA : Str := str "example.com.#1#"

/-- A cached negative (answer-less) response for `example.com.`: only
an SOA in the authority section. -/
def cachedNegative : CachedMsg :=
  { msg := { baseMsg with
      question := [{ name := str "example.com.", qtype := TypeA, qclass := 1 }],
      ns := [mkSOA (str "example.com.") 300] },
    expires := 1699999000 }

/-- Cache enabled, holding only the expired `cachedNegative` under the
key of `reqExampleA`; the single upstream fails. -/
def envStaleNegative : Env :=
  { cacheEnabled := true,
    cacheGet := fun k => if k = keyExampleA then some cachedNegative else none,
    now := 1700000000,
    strategy := fun _ => [none] }

/-- Counterexample for C6: the strategy result is SERVFAIL and an
(expired) cache entry exists for the request's key, yet the pipeline
does *not* return that cached entry: the cached message has no answer
records, so the stale-serve gate rejects it and the reply is the
`SetReply`-processed SERVFAIL (empty authority section), not the
TTL-12 rewrite of the cached entry (whose authority section is
non-empty). -/
theorem c6_counterexample :
    (mergeMsgs (envStaleNegative.strategy (removeEDNS reqExampleA))).rcode
        = RcodeServerFailure
    ∧ getDnsRequestCacheKey reqExampleA = some keyExampleA
    ∧ envStaleNegative.cacheGet keyExampleA = some cachedNegative
    ∧ (handleDnsMsg envStaleNegative reqExampleA).map
        (fun res => res.reply.ns) = some []
    ∧ (replyUpdateTtl envStaleNegative.now (removeEDNS reqExampleA)
        cachedNegative.msg 12).ns ≠ [] := by
  refine ⟨rfl, by decide, rfl, by decide, by decide⟩

/-- Every record kept by `updateRRs` carries the rewritten TTL. -/
theorem updateRRs_ttl (u32now ttl : Nat) (rrs : List RR) :
    ∀ rr ∈ updateRRs u32now ttl rrs, rr.hdr.ttl = ttl := by
  intro rr hmem
  unfold updateRRs at hmem
  rw [List.mem_filterMap] at hmem
  obtain ⟨a, -, ha⟩ := hmem
  revert ha
  split
  · split
    · intro h; simp at h
    · intro h
      cases Option.some.inj h
      rfl
  · intro h
    cases Option.some.inj h
    rfl

/-- Whether the concrete struct behind a record is `*dns.OPT`. -/
def isOptData (rr : RR) : Bool :=
  match rr.rdata with
  | .opt _ => true
  | _ => false

/-- Every non-OPT record kept by `updateExtra` carries the rewritten
TTL. -/
theorem updateExtra_ttl (u32now ttl : Nat) (reqOpt : Option RR)
    (rrs : List RR) :
    ∀ rr ∈ updateExtra u32now ttl reqOpt rrs,
      isOptData rr = false → rr.hdr.ttl = ttl := by
  intro rr hmem hopt
  unfold updateExtra at hmem
  rw [List.mem_filterMap] at hmem
  obtain ⟨a, -, ha⟩ := hmem
  revert ha
  split
  · intro h
    cases Option.some.inj h
    simp [isOptData] at hopt
  · split
    · intro h; simp at h
    · intro h
      cases Option.some.inj h
      rfl
  · intro h
    cases Option.some.inj h
    rfl

/-- C6 (amended): when the strategy result is SERVFAIL and an
*expired* cache entry exists for the request's key, the pipeline
serves the cached entry rewritten to TTL 12 — every answer and
authority record, and every additional record other than the OPT
pseudo-record, carries TTL 12, expired RRSIGs having been dropped —
**provided the rewritten message has at least one answer record**;
when the rewritten cached message has no answers, the gate rejects it
and the (SetReply-processed) SERVFAIL is returned instead. -/
theorem c6_stale_entry_served_with_ttl12 (env : Env) (req : Msg)
    (k : Str) (v : CachedMsg)
    (hc : env.cacheEnabled = true)
    (hk : getDnsRequestCacheKey req = some k)
    (hv : env.cacheGet k = some v)
    (hexp : v.expires ≤ env.now)
    (hsf : (mergeMsgs (env.strategy (removeEDNS req))).rcode
      = RcodeServerFailure) :
    ((replyUpdateTtl env.now (removeEDNS req) v.msg 12).answer ≠ [] →
      handleDnsMsg env req =
        some { reply := replyUpdateTtl env.now (removeEDNS req) v.msg 12,
               stored := none }
      ∧ (∀ rr ∈ (replyUpdateTtl env.now (removeEDNS req) v.msg 12).answer,
          rr.hdr.ttl = 12)
      ∧ (∀ rr ∈ (replyUpdateTtl env.now (removeEDNS req) v.msg 12).ns,
          rr.hdr.ttl = 12)
      ∧ (∀ rr ∈ (replyUpdateTtl env.now (removeEDNS req) v.msg 12).extra,
          isOptData rr = false → rr.hdr.ttl = 12))
    ∧ ((replyUpdateTtl env.now (removeEDNS req) v.msg 12).answer = [] →
      (handleDnsMsg env req).map HandleResult.reply =
        some (setReply (mergeMsgs (env.strategy (removeEDNS req)))
          (removeEDNS req))) := by
  have hbase : handleDnsMsg env req = some (afterCache env req (some v.msg) k) := by
    unfold handleDnsMsg
    rw [if_pos hc, hk]
    simp only []
    rw [hv]
    simp only []
    rw [if_neg (by omega)]
  constructor
  · intro hne
    have hlen : (replyUpdateTtl env.now (removeEDNS req) v.msg 12).answer.length > 0 :=
      List.length_pos.mpr hne
    have hafter : afterCache env req (some v.msg) k =
        { reply := replyUpdateTtl env.now (removeEDNS req) v.msg 12,
          stored := none } := by
      unfold afterCache
      simp only [hsf, hlen, if_true]
    refine ⟨by rw [hbase, hafter], ?_, ?_, ?_⟩
    · intro rr hmem
      have hsec : (replyUpdateTtl env.now (removeEDNS req) v.msg 12).answer =
          updateRRs ((env.now % 4294967296).toNat) 12 v.msg.answer := rfl
      rw [hsec] at hmem
      exact updateRRs_ttl _ 12 _ rr hmem
    · intro rr hmem
      have hsec : (replyUpdateTtl env.now (removeEDNS req) v.msg 12).ns =
          updateRRs ((env.now % 4294967296).toNat) 12 v.msg.ns := rfl
      rw [hsec] at hmem
      exact updateRRs_ttl _ 12 _ rr hmem
    · intro rr hmem
      have hsec : (replyUpdateTtl env.now (removeEDNS req) v.msg 12).extra =
          updateExtra ((env.now % 4294967296).toNat) 12
            (isEdns0 (removeEDNS req)) v.msg.extra := rfl
      rw [hsec] at hmem
      exact updateExtra_ttl _ 12 _ _ rr hmem
  · intro hempty
    rw [hbase]
    have hrepl : (afterCache env req (some v.msg) k).reply =
        setReply (mergeMsgs (env.strategy (removeEDNS req))) (removeEDNS req) := by
      unfold afterCache
      simp only [hsf, hempty, List.length_nil, Nat.lt_irrefl, if_false]
      simp
    rw [Option.map_some', hrepl]

/-- A cached positive response for `example.com.`: one A answer (TTL
300), an SOA authority record, already expired. -/
def cachedPositive : CachedMsg :=
  { msg := { baseMsg with
      question := [{ name := str "example.com.", qtype := TypeA, qclass := 1 }],
      answer := [mkA (str "example.com.") 300 (.v4 93 184 216 34)],
      ns := [mkSOA (str "example.com.") 300] },
    expires := 1699999000 }

/-- Cache enabled, holding only the expired `cachedPositive`; the
single upstream fails. -/
def envStalePositive : Env :=
  { cacheEnabled := true,
    cacheGet := fun k => if k = keyExampleA then some cachedPositive else none,
    now := 1700000000,
    strategy := fun _ => [none] }

/-- Witness for C6 (amended): with an expired answer-carrying entry
and a SERVFAIL strategy result, the stale entry is served and its
records carry TTL 12. -/
theorem c6_stale_entry_served_witness :
    handleDnsMsg envStalePositive reqExampleA =
      some { reply := replyUpdateTtl envStalePositive.now
               (removeEDNS reqExampleA) cachedPositive.msg 12,
             stored := none }
    ∧ (∀ rr ∈ (replyUpdateTtl envStalePositive.now (removeEDNS reqExampleA)
        cachedPositive.msg 12).answer, rr.hdr.ttl = 12)
    ∧ (∀ rr ∈ (replyUpdateTtl envStalePositive.now (removeEDNS reqExampleA)
        cachedPositive.msg 12).ns, rr.hdr.ttl = 12)
    ∧ (∀ rr ∈ (replyUpdateTtl envStalePositive.now (removeEDNS reqExampleA)
        cachedPositive.msg 12).extra, isOptData rr = false → rr.hdr.ttl = 12) :=
  (c6_stale_entry_served_with_ttl12 envStalePositive reqExampleA keyExampleA
    cachedPositive rfl (by decide) rfl (by decide) rfl).1 (by decide)

/-- C7: a cached entry is only served when the rewritten cached
message has at least one answer record — a fresh hit whose rewrite
has an empty Answer section is ignored and the pipeline proceeds to
the upstream exchange (`afterCache`, with the rewritten message as
the stale candidate); and the stale-serve fallback applies the same
gate, behaving exactly as if no cached entry existed. -/
theorem c7_cache_hit_requires_nonempty_answer (env : Env) (req : Msg)
    (k : Str) (v : CachedMsg)
    (hc : env.cacheEnabled = true)
    (hk : getDnsRequestCacheKey req = some k)
    (hv : env.cacheGet k = some v) :
    (env.now < v.expires →
      (replyUpdateTtl env.now req v.msg ((v.expires - env.now).toNat)).answer = [] →
      handleDnsMsg env req =
        some (afterCache env req
          (some (replyUpdateTtl env.now req v.msg ((v.expires - env.now).toNat))) k))
    ∧ (∀ rc : Msg,
        (mergeMsgs (env.strategy (removeEDNS req))).rcode = RcodeServerFailure →
        (replyUpdateTtl env.now (removeEDNS req) rc 12).answer = [] →
        afterCache env req (some rc) k = afterCache env req none k) := by
  constructor
  · intro hfresh hempty
    unfold handleDnsMsg
    rw [if_pos hc, hk]
    simp only []
    rw [hv]
    simp only []
    rw [if_pos hfresh, if_neg (by rw [hempty]; simp)]
  · intro rc hsf hempty
    unfold afterCache
    simp only [hsf, hempty, List.length_nil, Nat.lt_irrefl, if_false]

/-- The `cachedNegative` entry, still fresh at `now = 1700000000`. -/
def cachedFreshNegative : CachedMsg :=
  { msg := cachedNegative.msg, expires := 1700000600 }

/-- Cache enabled, holding only the fresh answer-less
`cachedFreshNegative`; the single upstream fails. -/
def envFreshNegative : Env :=
  { cacheEnabled := true,
    cacheGet := fun k => if k = keyExampleA then some cachedFreshNegative else none,
    now := 1700000000,
    strategy := fun _ => [none] }

/-- Witness for C7: a fresh hit on an answer-less (negative) cached
entry is ignored — the pipeline queries the upstreams — and the
stale gate likewise treats an answer-less candidate as absent. -/
theorem c7_cache_hit_requires_nonempty_answer_witness :
    handleDnsMsg envFreshNegative reqExampleA =
      some (afterCache envFreshNegative reqExampleA
        (some (replyUpdateTtl envFreshNegative.now reqExampleA
          cachedFreshNegative.msg
          ((cachedFreshNegative.expires - envFreshNegative.now).toNat)))
        keyExampleA)
    ∧ afterCache envFreshNegative reqExampleA (some cachedFreshNegative.msg)
        keyExampleA
      = afterCache envFreshNegative reqExampleA none keyExampleA := by
  have h := c7_cache_hit_requires_nonempty_answer envFreshNegative reqExampleA
    keyExampleA cachedFreshNegative rfl (by decide) rfl
  exact ⟨h.1 (by decide) (by decide), h.2 cachedFreshNegative.msg rfl (by decide)⟩

/-- `strings.Split` never returns an empty slice. -/
theorem splitDot_ne_nil (s : Str) : splitDot s ≠ [] := by
  induction s with
  | nil => simp [splitDot]
  | cons c rest ih =>
    simp only [splitDot]
    split
    · simp
    · split
      · simp
      · simp

/-- A leading dot contributes a leading empty label. -/
theorem splitDot_cons_dot (s : Str) : splitDot ('.' :: s) = [] :: splitDot s := by
  simp [splitDot]

/-- A leading `a.` contributes a leading `a` label. -/
theorem splitDot_cons_aDot (s : Str) :
    splitDot ('a' :: '.' :: s) = [str "a"] ++ splitDot s := by
  simp [splitDot, str]

/-- A trailing dot contributes a trailing empty label. -/
theorem splitDot_append_dot (x : Str) :
    splitDot (x ++ ['.']) = splitDot x ++ [[]] := by
  induction x with
  | nil => rfl
  | cons c rest ih =>
    by_cases hc : c = '.'
    · subst hc
      simp [splitDot_cons_dot, List.cons_append, ih]
    · have hstep : splitDot (c :: (rest ++ ['.'])) =
          match splitDot (rest ++ ['.']) with
          | [] => [[c]]
          | l :: ls => (c :: l) :: ls := by
        simp [splitDot, hc]
      have hstep2 : splitDot (c :: rest) =
          match splitDot rest with
          | [] => [[c]]
          | l :: ls => (c :: l) :: ls := by
        simp [splitDot, hc]
      rw [List.cons_append, hstep, ih, hstep2]
      cases h : splitDot rest with
      | nil => exact absurd h (splitDot_ne_nil rest)
      | cons l ls => simp

/-- The label walk accepts two identical lists. -/
theorem labelsMatch_refl (l : List Str) : labelsMatch l l = true := by
  induction l with
  | nil => rfl
  | cons a rest ih => simp [labelsMatch, ih]

/-- The label walk ignores a shared prefix. -/
theorem labelsMatch_append_left (l m1 m2 : List Str) :
    labelsMatch (l ++ m1) (l ++ m2) = labelsMatch m1 m2 := by
  induction l with
  | nil => rfl
  | cons a rest ih => simp [labelsMatch, ih, labelsMatch_refl]

/-- Any label list matches itself as a rule. -/
theorem ruleMatches_self (l : List Str) : ruleMatches l l = true := by
  simp [ruleMatches, labelsMatch_refl]

/-- A rule strictly longer than the domain cannot match (`i` never
reaches `-1`). -/
theorem ruleMatches_longer (m d : List Str) (h : d.length < m.length) :
    ruleMatches m d = false := by
  simp [ruleMatches]
  omega

/-- The strict-suffix success case: a rule `"" :: L` matches a domain
`y :: L` — the leading empty rule label consumes the extra domain
label. -/
theorem ruleMatches_strict (L : List Str) (y : Str) :
    ruleMatches ([] :: L) (y :: L) = true := by
  simp [ruleMatches, labelsMatch_append_left, labelsMatch]

/-- `ParseRules` drops all-empty pattern sets entirely. -/
theorem ParseRules_all_empty :
    ∀ raw : List Str, (∀ r ∈ raw, r = []) → ParseRules raw = [] := by
  intro raw
  induction raw with
  | nil => intro _; rfl
  | cons r rest ih =>
    intro hall
    have hr : r = [] := hall r (List.mem_cons_self r rest)
    subst hr
    have hrest := ih fun x hx => hall x (List.mem_cons_of_mem [] hx)
    unfold ParseRules at hrest ⊢
    simp only [List.filterMap_cons]
    simpa using hrest

/-- A pattern that does not end in `.` is false (empty string). -/
theorem hasSuffixDot_nil : hasSuffixDot [] = false := by decide

/-- Prepending keeps a dot suffix. -/
theorem hasSuffixDot_cons (c : Char) (x : Str) (h : hasSuffixDot x = true) :
    hasSuffixDot (c :: x) = true := by
  cases x with
  | nil => exact absurd h (by decide)
  | cons y ys =>
    simp only [hasSuffixDot] at h ⊢
    rwa [List.getLast?_cons_cons]

/-- C9: for every pattern `p` ending in `.`, `matches({p}, p)` holds;
for a strict-suffix rule `"." ++ X` the bare domain `X` never matches
while the canonical (dot-terminated) sub-domain `"a." ++ X` does; and
a rule set built only from empty pattern strings matches nothing
(`ParseRules` drops empty patterns). -/
theorem c9_rule_matcher_properties :
    (∀ p : Str, hasSuffixDot p = true →
      HasMatchedRule (ParseRules [p]) p = true)
    ∧ (∀ x : Str, HasMatchedRule (ParseRules ['.' :: x]) x = false)
    ∧ (∀ x : Str, hasSuffixDot x = true →
      HasMatchedRule (ParseRules ['.' :: x]) (str "a." ++ x) = true)
    ∧ (∀ raw : List Str, (∀ r ∈ raw, r = []) →
      ∀ d : Str, HasMatchedRule (ParseRules raw) d = false) := by
  refine ⟨?_, ?_, ?_, ?_⟩
  · intro p hp
    have hpne : p ≠ [] := by
      intro h; subst h; exact absurd hp (by decide)
    simp [ParseRules, HasMatchedRule, hpne, hp, ruleMatches_self]
  · intro x
    have hrne : ('.' :: x) ≠ [] := by simp
    by_cases hx : hasSuffixDot ('.' :: x) = true
    · simp only [ParseRules, List.filterMap_cons, if_neg hrne, hx, if_true,
        List.filterMap_nil, HasMatchedRule, List.any_cons, List.any_nil,
        Bool.or_false]
      rw [splitDot_cons_dot]
      exact ruleMatches_longer _ _ (by simp)
    · replace hx : hasSuffixDot ('.' :: x) = false := by
        simpa using hx
      simp only [ParseRules, List.filterMap_cons, if_neg hrne, hx,
        Bool.false_eq_true, if_false, List.filterMap_nil, HasMatchedRule,
        List.any_cons, List.any_nil, Bool.or_false]
      rw [show ('.' :: x) ++ ['.'] = '.' :: (x ++ ['.']) from rfl,
        splitDot_cons_dot, splitDot_append_dot]
      exact ruleMatches_longer _ _ (by simp only [List.length_cons, List.length_append]; omega)
  · intro x hx
    have hrne : ('.' :: x) ≠ [] := by simp
    have hdot : hasSuffixDot ('.' :: x) = true := hasSuffixDot_cons '.' x hx
    have hdom : str "a." ++ x = 'a' :: '.' :: x := rfl
    simp only [ParseRules, List.filterMap_cons, if_neg hrne, hdot, if_true,
      List.filterMap_nil, HasMatchedRule, List.any_cons, List.any_nil,
      Bool.or_false, hdom]
    rw [splitDot_cons_dot, show splitDot ('a' :: '.' :: x) = [str "a"] ++ splitDot x
      from splitDot_cons_aDot x]
    exact ruleMatches_strict _ _
  · intro raw hall d
    rw [ParseRules_all_empty raw hall]
    rfl

/-- Witness for C9 at `p = "a.com."`, `X = "a.com."` and the all-empty
rule set `["", ""]`. -/
theorem c9_rule_matcher_properties_witness :
    HasMatchedRule (ParseRules [str "a.com."]) (str "a.com.") = true
    ∧ HasMatchedRule (ParseRules ['.' :: str "a.com."]) (str "a.com.") = false
    ∧ HasMatchedRule (ParseRules ['.' :: str "a.com."])
        (str "a." ++ str "a.com.") = true
    ∧ HasMatchedRule (ParseRules [[], []]) (str "b.a.com.") = false := by
  obtain ⟨h1, h2, h3, h4⟩ := c9_rule_matcher_properties
  exact ⟨h1 (str "a.com.") (by decide), h2 (str "a.com."),
    h3 (str "a.com.") (by decide), h4 [[], []] (by simp) (str "b.a.com.")⟩

/-!
The `fastest` strategy race (`Handler.getTheFastestResults`,
src/internal/handler/handler.go lines 538-610).  Each goroutine `j`
exchanges with upstream `j` and then, under the mutex, runs the body
modelled by `raceStep`.  An execution in which all exchanges complete
is an arrival sequence: a list of `(j, result)` pairs, `none` meaning
the exchange returned an error, in which every index in
`[0, #upstreams)` occurs exactly once.
-/

/-- The mutable state shared by the racing goroutines. -/
structure RaceState where
  finishedCount : Nat
  finished : Bool
  primaryIndex : List Nat
  freedomIndex : List Nat
  msgs : List (Option Msg)
deriving Repr

/-- The result-recording part of the goroutine body (`if err == nil`):
a valid message is recorded in `msgs` and its upstream's index is
appended to its class's list; an invalid message from a primary is
counted in `primaryIndex` but not recorded. -/
def processResult (ups : List Upstream) (st : RaceState)
    (ev : Nat × Option Msg) : RaceState :=
  match ev.2 with
  | none => st
  | some msg =>
    match ups.get? ev.1 with
    | none => st
    | some up =>
      if up.IsValidMsg msg then
        if up.isPrimary then
          { st with primaryIndex := st.primaryIndex ++ [ev.1],
                    msgs := st.msgs.set ev.1 (some msg) }
        else
          { st with freedomIndex := st.freedomIndex ++ [ev.1],
                    msgs := st.msgs.set ev.1 (some msg) }
      else if up.isPrimary then
        { st with primaryIndex := st.primaryIndex ++ [ev.1] }
      else st

/-- `msgs[primaryIndex[0]] != nil`: whether the first counted primary
recorded a (valid) message. -/
def primaryHeadValid (st : RaceState) : Bool :=
  match st.primaryIndex with
  | [] => false
  | j0 :: _ => ((st.msgs.getD j0 none)).isSome

/-- The three exit checks at the end of the goroutine body, in source
order: all upstreams finished; both classes have an entry; a counted
primary exists and either it recorded a valid message or a freedom
did. -/
def applyExit (n : Nat) (st : RaceState) : RaceState :=
  if st.finishedCount = n then { st with finished := true }
  else if !st.primaryIndex.isEmpty && !st.freedomIndex.isEmpty then
    { st with finished := true }
  else if !st.primaryIndex.isEmpty
      && (primaryHeadValid st || !st.freedomIndex.isEmpty) then
    { st with finished := true }
  else st

/-- One arrival under the mutex: increment `finishedCount`; if the
race already finished, return at once (the result is discarded);
otherwise record the result and run the exit checks. -/
def raceStep (ups : List Upstream) (st : RaceState)
    (ev : Nat × Option Msg) : RaceState :=
  let st1 := { st with finishedCount := st.finishedCount + 1 }
  if st1.finished then st1
  else applyExit ups.length (processResult ups st1 ev)

/-- The race over a whole arrival sequence, from the zero state. -/
def runRace (ups : List Upstream) (arr : List (Nat × Option Msg)) : RaceState :=
  arr.foldl (raceStep ups) ⟨0, false, [], [], List.replicate ups.length none⟩

/-- Whether upstream `j` is primary. -/
def upIsPrimary (ups : List Upstream) (j : Nat) : Bool :=
  match ups.get? j with
  | some up => up.isPrimary
  | none => false

/-- Whether an arrival delivered a message its upstream validates. -/
def evValid (ups : List Upstream) (ev : Nat × Option Msg) : Bool :=
  match ev.2 with
  | some m =>
    match ups.get? ev.1 with
    | some up => up.IsValidMsg m
    | none => false
  | none => false

/-- Modelled from the spec: the claim's exit predicate for the fastest
strategy on an arrival prefix — (a) every upstream has returned, or
(b) at least one primary and at least one freedom upstream have
returned, or (c) at least one primary has returned and (that (first)
primary produced a valid answer, or some freedom already has a valid
answer). -/
def claimFastestExit (ups : List Upstream)
    (pre : List (Nat × Option Msg)) : Bool :=
  decide (pre.length = ups.length)
  || ((pre.any fun ev => upIsPrimary ups ev.1)
      && (pre.any fun ev => !upIsPrimary ups ev.1))
  || ((pre.any fun ev => upIsPrimary ups ev.1)
      && ((match (pre.filter fun ev => upIsPrimary ups ev.1).head? with
           | some ev0 => evValid ups ev0
           | none => false)
          || pre.any fun ev => !upIsPrimary ups ev.1 && evValid ups ev))

/-- An arrival that counts toward `primaryIndex`: a primary upstream
returned without a transport error (valid or not). -/
def countedPrimary (ups : List Upstream) (ev : Nat × Option Msg) : Bool :=
  upIsPrimary ups ev.1 && ev.2.isSome

/-- An arrival that counts toward `freedomIndex`: a freedom upstream
returned a message its validator accepts. -/
def validFreedom (ups : List Upstream) (ev : Nat × Option Msg) : Bool :=
  !upIsPrimary ups ev.1 && evValid ups ev

/-- The race's actual exit predicate on an arrival prefix: every
upstream has returned (and at least one arrival happened), or a
counted primary exists and either the first counted primary's message
was valid or some freedom returned a valid message.  (The source's
"both classes have an entry" check is the `validFreedom` disjunct.) -/
def codeFastestExit (ups : List Upstream)
    (pre : List (Nat × Option Msg)) : Bool :=
  (decide (pre.length = ups.length) && !pre.isEmpty)
  || (pre.any (countedPrimary ups)
      && ((match (pre.filter (countedPrimary ups)).head? with
           | some ev0 => evValid ups ev0
           | none => false)
          || pre.any (validFreedom ups)))

/-- Three upstreams: two primaries and one freedom. -/
def upsRace : List Upstream :=
  [upstreamPrimaryEmptyRanger, upstreamPrimaryEmptyRanger, upstreamFreedomW]

/-- A completed arrival sequence: primary 0 errors, freedom 2 returns
a valid message, primary 1 errors last. -/
def arrRace : List (Nat × Option Msg) :=
  [(0, none), (2, some msgNoAnswers), (1, none)]

/-- Counterexample for C8: after the first two arrivals a primary has
returned (with a transport error) and a freedom has returned, so the
claim's condition (b) holds and the claim says the race has
terminated; but the code counts a primary only when its exchange
returned without error, so `finished` is still false and the race
only ends when the last upstream arrives. -/
theorem c8_counterexample :
    claimFastestExit upsRace (arrRace.take 2) = true
    ∧ (runRace upsRace (arrRace.take 2)).finished = false
    ∧ (runRace upsRace arrRace).finished = true := by
  refine ⟨rfl, rfl, rfl⟩

/-- The indices `primaryIndex` holds after an arrival prefix (before
termination): counted primaries, in arrival order. -/
def primariesOf (ups : List Upstream) (pre : List (Nat × Option Msg)) :
    List Nat :=
  (pre.filter (countedPrimary ups)).map Prod.fst

/-- The indices `freedomIndex` holds after an arrival prefix (before
termination): freedoms with valid messages, in arrival order. -/
def freedomsOf (ups : List Upstream) (pre : List (Nat × Option Msg)) :
    List Nat :=
  (pre.filter (validFreedom ups)).map Prod.fst

/-- The `msgs` slice after an arrival prefix (before termination):
slot `j` holds the message of a valid arrival at `j`. -/
def msgsOf (ups : List Upstream) (n : Nat) (pre : List (Nat × Option Msg)) :
    List (Option Msg) :=
  pre.foldl (fun ms ev => if evValid ups ev then ms.set ev.1 ev.2 else ms)
    (List.replicate n none)

theorem msgsOf_length (ups : List Upstream) (n : Nat) :
    ∀ pre, (msgsOf ups n pre).length = n := by
  have key : ∀ (pre : List (Nat × Option Msg)) (init : List (Option Msg)),
      (pre.foldl (fun ms ev => if evValid ups ev then ms.set ev.1 ev.2 else ms)
        init).length = init.length := by
    intro pre
    induction pre with
    | nil => intro init; rfl
    | cons ev rest ih =>
      intro init
      rw [List.foldl_cons, ih]
      split
      · exact List.length_set init ev.1 ev.2
      · rfl
  intro pre
  unfold msgsOf
  rw [key]
  exact List.length_replicate n none

theorem msgsOf_append (ups : List Upstream) (n : Nat)
    (pre : List (Nat × Option Msg)) (ev : Nat × Option Msg) :
    msgsOf ups n (pre ++ [ev]) =
      if evValid ups ev then (msgsOf ups n pre).set ev.1 ev.2
      else msgsOf ups n pre := by
  unfold msgsOf
  rw [List.foldl_append]
  rfl

theorem primariesOf_append (ups : List Upstream)
    (pre : List (Nat × Option Msg)) (ev : Nat × Option Msg) :
    primariesOf ups (pre ++ [ev]) =
      primariesOf ups pre
        ++ (if countedPrimary ups ev then [ev.1] else []) := by
  by_cases h : countedPrimary ups ev = true
  · simp [primariesOf, List.filter_append, h]
  · replace h : countedPrimary ups ev = false := by simpa using h
    simp [primariesOf, List.filter_append, h]

theorem freedomsOf_append (ups : List Upstream)
    (pre : List (Nat × Option Msg)) (ev : Nat × Option Msg) :
    freedomsOf ups (pre ++ [ev]) =
      freedomsOf ups pre
        ++ (if validFreedom ups ev then [ev.1] else []) := by
  by_cases h : validFreedom ups ev = true
  · simp [freedomsOf, List.filter_append, h]
  · replace h : validFreedom ups ev = false := by simpa using h
    simp [freedomsOf, List.filter_append, h]

theorem getD_set_self (l : List (Option Msg)) (i : Nat) (v : Option Msg)
    (h : i < l.length) : (l.set i v).getD i none = v := by
  induction l generalizing i with
  | nil => simp at h
  | cons a t ih =>
    cases i with
    | zero => rfl
    | succ i =>
      rw [List.set_cons_succ, List.getD_cons_succ]
      exact ih i (by simpa using h)

theorem getD_set_other (l : List (Option Msg)) (i j : Nat) (v : Option Msg)
    (h : i ≠ j) : (l.set i v).getD j none = l.getD j none := by
  induction l generalizing i j with
  | nil => rfl
  | cons a t ih =>
    cases i with
    | zero =>
      cases j with
      | zero => exact absurd rfl h
      | succ j => rfl
    | succ i =>
      cases j with
      | zero => rfl
      | succ j =>
        rw [List.set_cons_succ, List.getD_cons_succ, List.getD_cons_succ]
        exact ih i j fun e => h (by rw [e])

/-- Slot `j` of the message slice is occupied exactly when some valid
arrival at index `j` occurred. -/
theorem msgsOf_getD (ups : List Upstream) (n : Nat) :
    ∀ pre, (∀ ev ∈ pre, ev.1 < n) → ∀ j,
      ((msgsOf ups n pre).getD j none).isSome = true ↔
        ∃ ev ∈ pre, ev.1 = j ∧ evValid ups ev = true := by
  intro pre
  induction pre using List.reverseRecOn with
  | nil =>
    intro _ j
    constructor
    · intro h
      rw [show msgsOf ups n [] = List.replicate n none from rfl,
        List.getD_eq_getElem?_getD,
        List.getElem?_getD_replicate_default_eq] at h
      simp at h
    · intro ⟨ev, hmem, _⟩
      simp at hmem
  | append_singleton pre ev ih =>
    intro hb j
    have hb' : ∀ e ∈ pre, e.1 < n := fun e he => hb e (by simp [he])
    rw [msgsOf_append]
    by_cases hval : evValid ups ev = true
    · rw [if_pos hval]
      by_cases hj : ev.1 = j
      · subst hj
        rw [getD_set_self _ _ _ (by rw [msgsOf_length]; exact hb ev (by simp))]
        have hsome : ev.2.isSome = true := by
          unfold evValid at hval
          revert hval
          match ev with
          | (i, some m) => intro _; rfl
          | (i, none) => intro h; simp at h
        constructor
        · intro _
          exact ⟨ev, by simp, rfl, hval⟩
        · intro _
          exact hsome
      · rw [getD_set_other _ _ _ _ hj, ih hb' j]
        constructor
        · intro ⟨e, he, h1, h2⟩
          exact ⟨e, by simp [he], h1, h2⟩
        · intro ⟨e, he, h1, h2⟩
          rcases (List.mem_append.mp he) with he' | he'
          · exact ⟨e, he', h1, h2⟩
          · rcases List.mem_singleton.mp he' with rfl
            exact absurd h1 hj
    · rw [if_neg hval, ih hb' j]
      constructor
      · intro ⟨e, he, h1, h2⟩
        exact ⟨e, by simp [he], h1, h2⟩
      · intro ⟨e, he, h1, h2⟩
        rcases (List.mem_append.mp he) with he' | he'
        · exact ⟨e, he', h1, h2⟩
        · rcases List.mem_singleton.mp he' with rfl
          exact absurd h2 hval

theorem primariesOf_eq_nil_iff (ups : List Upstream)
    (pre : List (Nat × Option Msg)) :
    primariesOf ups pre = [] ↔ pre.any (countedPrimary ups) = false := by
  simp [primariesOf, List.map_eq_nil_iff, List.filter_eq_nil_iff,
    List.any_eq_false]

theorem freedomsOf_eq_nil_iff (ups : List Upstream)
    (pre : List (Nat × Option Msg)) :
    freedomsOf ups pre = [] ↔ pre.any (validFreedom ups) = false := by
  simp [freedomsOf, List.map_eq_nil_iff, List.filter_eq_nil_iff,
    List.any_eq_false]

/-- On the untermimated state, the `msgs[primaryIndex[0]] != nil` test
agrees with "the first counted primary's message was valid". -/
theorem primaryHeadValid_char (ups : List Upstream)
    (pre : List (Nat × Option Msg)) (c : Nat) (b : Bool)
    (hb : ∀ ev ∈ pre, ev.1 < ups.length)
    (hnd : (pre.map Prod.fst).Nodup) :
    primaryHeadValid
        ⟨c, b, primariesOf ups pre, freedomsOf ups pre,
          msgsOf ups ups.length pre⟩
      = (match (pre.filter (countedPrimary ups)).head? with
         | some ev0 => evValid ups ev0
         | none => false) := by
  cases hf : pre.filter (countedPrimary ups) with
  | nil =>
    simp [primaryHeadValid, primariesOf, hf]
  | cons ev0 rest =>
    have hmem : ev0 ∈ pre :=
      List.mem_of_mem_filter (hf ▸ List.mem_cons_self ev0 rest)
    simp only [primaryHeadValid, primariesOf, hf, List.map_cons,
      List.head?_cons]
    cases hval : evValid ups ev0 with
    | true =>
      exact (msgsOf_getD ups ups.length pre hb ev0.1).mpr
        ⟨ev0, hmem, rfl, hval⟩
    | false =>
      cases hs : ((msgsOf ups ups.length pre).getD ev0.1 none).isSome with
      | false => rfl
      | true =>
        obtain ⟨ev, hm, h1, h2⟩ :=
          (msgsOf_getD ups ups.length pre hb ev0.1).mp hs
        have := List.inj_on_of_nodup_map hnd hm hmem h1
        subst this
        rw [hval] at h2
        exact absurd h2 (by simp)

/-- On the unterminated state, the three exit checks fire exactly when
`codeFastestExit` holds of the history. -/
theorem applyExit_char (ups : List Upstream)
    (pre : List (Nat × Option Msg)) (hne : pre ≠ [])
    (hb : ∀ ev ∈ pre, ev.1 < ups.length)
    (hnd : (pre.map Prod.fst).Nodup) :
    applyExit ups.length
        ⟨pre.length, false, primariesOf ups pre, freedomsOf ups pre,
          msgsOf ups ups.length pre⟩
      = ⟨pre.length, codeFastestExit ups pre, primariesOf ups pre,
          freedomsOf ups pre, msgsOf ups ups.length pre⟩ := by
  have hie : pre.isEmpty = false := by
    cases pre with
    | nil => exact absurd rfl hne
    | cons a l => rfl
  unfold applyExit
  by_cases h1 : pre.length = ups.length
  · rw [if_pos h1]
    have : codeFastestExit ups pre = true := by
      unfold codeFastestExit
      rw [h1, hie]
      simp
    rw [this]
  · rw [if_neg h1]
    have hd1 : decide (pre.length = ups.length) = false := by
      simpa using h1
    cases hcp : pre.any (countedPrimary ups) with
    | false =>
      have hP : primariesOf ups pre = [] :=
        (primariesOf_eq_nil_iff ups pre).mpr hcp
      have : codeFastestExit ups pre = false := by
        unfold codeFastestExit
        rw [hd1, hie, hcp]
        simp
      rw [this]
      simp [hP]
    | true =>
      have hP : primariesOf ups pre ≠ [] := by
        intro h
        rw [(primariesOf_eq_nil_iff ups pre).mp h] at hcp
        exact absurd hcp (by simp)
      have hPe : (primariesOf ups pre).isEmpty = false := by
        cases hp : primariesOf ups pre with
        | nil => exact absurd hp hP
        | cons a l => rfl
      cases hvf : pre.any (validFreedom ups) with
      | true =>
        have hF : freedomsOf ups pre ≠ [] := by
          intro h
          rw [(freedomsOf_eq_nil_iff ups pre).mp h] at hvf
          exact absurd hvf (by simp)
        have hFe : (freedomsOf ups pre).isEmpty = false := by
          cases hfq : freedomsOf ups pre with
          | nil => exact absurd hfq hF
          | cons a l => rfl
        have : codeFastestExit ups pre = true := by
          unfold codeFastestExit
          rw [hcp, hvf]
          simp
        rw [this]
        simp [hPe, hFe]
      | false =>
        have hF : freedomsOf ups pre = [] :=
          (freedomsOf_eq_nil_iff ups pre).mpr hvf
        have hFe : (freedomsOf ups pre).isEmpty = true := by rw [hF]; rfl
        have hcond2 :
            (!(primariesOf ups pre).isEmpty
              && !(freedomsOf ups pre).isEmpty) = false := by
          rw [hFe]
          simp
        rw [if_neg (by rw [hcond2]; simp)]
        have hhv := primaryHeadValid_char ups pre pre.length false hb hnd
        cases hfirst : (pre.filter (countedPrimary ups)).head? with
        | none =>
          rw [hfirst] at hhv
          simp only [] at hhv
          have hce : codeFastestExit ups pre = false := by
            simp [codeFastestExit, hd1, hcp, hvf, hfirst, h1]
          rw [hce]
          simp [hhv, hPe, hFe]
        | some ev0 =>
          rw [hfirst] at hhv
          simp only [] at hhv
          cases hval : evValid ups ev0 with
          | true =>
            rw [hval] at hhv
            have hce : codeFastestExit ups pre = true := by
              simp [codeFastestExit, hcp, hfirst, hval]
            rw [hce]
            simp [hhv, hPe]
          | false =>
            rw [hval] at hhv
            have hce : codeFastestExit ups pre = false := by
              simp [codeFastestExit, hd1, hcp, hvf, hfirst, hval, h1]
            rw [hce]
            simp [hhv, hPe, hFe]

/-- The result-recording step takes the unterminated state of a
history to the unterminated state of the extended history. -/
theorem processResult_char (ups : List Upstream)
    (pre : List (Nat × Option Msg)) (ev : Nat × Option Msg) (c : Nat)
    (hb : ev.1 < ups.length) :
    processResult ups
        ⟨c, false, primariesOf ups pre, freedomsOf ups pre,
          msgsOf ups ups.length pre⟩ ev
      = ⟨c, false, primariesOf ups (pre ++ [ev]),
          freedomsOf ups (pre ++ [ev]),
          msgsOf ups ups.length (pre ++ [ev])⟩ := by
  obtain ⟨j, r⟩ := ev
  simp only at hb
  have hup : ups[j]? = some ups[j] := List.getElem?_eq_getElem hb
  cases r with
  | none =>
    simp [processResult, primariesOf_append, freedomsOf_append,
      msgsOf_append, countedPrimary, validFreedom, evValid]
  | some m =>
    by_cases hv : (ups[j]).IsValidMsg m = true
    · by_cases hp : (ups[j]).isPrimary = true
      · simp [processResult, hup, hv, hp, primariesOf_append,
          freedomsOf_append, msgsOf_append, countedPrimary, validFreedom,
          evValid, upIsPrimary]
      · replace hp : (ups[j]).isPrimary = false := by simpa using hp
        simp [processResult, hup, hv, hp, primariesOf_append,
          freedomsOf_append, msgsOf_append, countedPrimary, validFreedom,
          evValid, upIsPrimary]
    · replace hv : (ups[j]).IsValidMsg m = false := by simpa using hv
      by_cases hp : (ups[j]).isPrimary = true
      · simp [processResult, hup, hv, hp, primariesOf_append,
          freedomsOf_append, msgsOf_append, countedPrimary, validFreedom,
          evValid, upIsPrimary]
      · replace hp : (ups[j]).isPrimary = false := by simpa using hp
        simp [processResult, hup, hv, hp, primariesOf_append,
          freedomsOf_append, msgsOf_append, countedPrimary, validFreedom,
          evValid, upIsPrimary]

/-- One arrival on the unterminated state of a history yields the
state of the extended history, its finished flag given by
`codeFastestExit`. -/
theorem raceStep_char (ups : List Upstream)
    (pre : List (Nat × Option Msg)) (ev : Nat × Option Msg)
    (hb : ∀ e ∈ pre ++ [ev], e.1 < ups.length)
    (hnd : ((pre ++ [ev]).map Prod.fst).Nodup) :
    raceStep ups
        ⟨pre.length, false, primariesOf ups pre, freedomsOf ups pre,
          msgsOf ups ups.length pre⟩ ev
      = ⟨(pre ++ [ev]).length, codeFastestExit ups (pre ++ [ev]),
          primariesOf ups (pre ++ [ev]), freedomsOf ups (pre ++ [ev]),
          msgsOf ups ups.length (pre ++ [ev])⟩ := by
  unfold raceStep
  rw [if_neg (by simp)]
  simp only []
  rw [processResult_char ups pre ev (pre.length + 1) (hb ev (by simp))]
  have h := applyExit_char ups (pre ++ [ev]) (by simp) hb hnd
  simp only [List.length_append, List.length_singleton] at h ⊢
  exact h

/-- While no exit point has been reached, the race state is exactly
the unterminated abstraction of the arrival history. -/
theorem runRace_char (ups : List Upstream) :
    ∀ pre : List (Nat × Option Msg),
      (∀ ev ∈ pre, ev.1 < ups.length) →
      ((pre.map Prod.fst).Nodup) →
      (∀ m, m ≤ pre.length → codeFastestExit ups (pre.take m) = false) →
      runRace ups pre =
        ⟨pre.length, false, primariesOf ups pre, freedomsOf ups pre,
          msgsOf ups ups.length pre⟩ := by
  intro pre
  induction pre using List.reverseRecOn with
  | nil => intro _ _ _; rfl
  | append_singleton pre ev ih =>
    intro hb hnd hex
    have hb' : ∀ e ∈ pre, e.1 < ups.length :=
      fun e he => hb e (List.mem_append_left _ he)
    have hnd' : (pre.map Prod.fst).Nodup := by
      rw [List.map_append] at hnd
      exact hnd.of_append_left
    have hex' : ∀ m, m ≤ pre.length →
        codeFastestExit ups (pre.take m) = false := by
      intro m hm
      have := hex m (by simp; omega)
      rwa [List.take_append_of_le_length hm] at this
    have hstep : runRace ups (pre ++ [ev]) =
        raceStep ups (runRace ups pre) ev := by
      unfold runRace
      rw [List.foldl_append]
      rfl
    rw [hstep, ih hb' hnd' hex', raceStep_char ups pre ev hb hnd]
    have : codeFastestExit ups (pre ++ [ev]) = false := by
      have := hex (pre.length + 1) (by simp)
      rwa [List.take_of_length_le (by simp)] at this
    rw [this]

/-- Once `finished` is set, later arrivals only increment the counter:
their results are discarded. -/
theorem foldl_raceStep_frozen (ups : List Upstream) :
    ∀ (l : List (Nat × Option Msg)) (st : RaceState),
      st.finished = true →
      l.foldl (raceStep ups) st =
        { st with finishedCount := st.finishedCount + l.length } := by
  intro l
  induction l with
  | nil => intro st h; simp
  | cons ev rest ih =>
    intro st h
    rw [List.foldl_cons]
    have hstep : raceStep ups st ev =
        { st with finishedCount := st.finishedCount + 1 } := by
      unfold raceStep
      rw [if_pos (by simp [h])]
    rw [hstep, ih _ (by simp [h])]
    have harith : st.finishedCount + 1 + rest.length
        = st.finishedCount + (rest.length + 1) := by omega
    simp [harith]

theorem codeFastestExit_nil (ups : List Upstream) :
    codeFastestExit ups [] = false := by
  simp [codeFastestExit]

/-- C8 (amended): under the fastest strategy, for every completed
arrival sequence (each upstream index arriving exactly once), the
race's `finished` flag is set after `k` arrivals exactly when some
prefix of at most `k` arrivals satisfies the race's exit predicate
`codeFastestExit`: (a) every upstream has returned, or (c) at least
one *primary* has returned *without a transport error* and either the
first such primary's message was valid or some *freedom* upstream has
returned a *valid* message (the spec's condition (b) is the special
case of a valid freedom answer); and results arriving after
termination are discarded — the final message set equals the message
set at the moment of termination. -/
theorem c8_fastest_race_exit (ups : List Upstream)
    (arr : List (Nat × Option Msg))
    (hlen : arr.length = ups.length)
    (hnd : (arr.map Prod.fst).Nodup)
    (hb : ∀ ev ∈ arr, ev.1 < ups.length) :
    (∀ k, ((runRace ups (arr.take k)).finished = true ↔
        ∃ m, m ≤ k ∧ codeFastestExit ups (arr.take m) = true))
    ∧ (∀ k, (runRace ups (arr.take k)).finished = true →
        (runRace ups arr).msgs = (runRace ups (arr.take k)).msgs) := by
  have hbk : ∀ k, ∀ ev ∈ arr.take k, ev.1 < ups.length :=
    fun k ev he => hb ev (List.mem_of_mem_take he)
  have hndk : ∀ k, ((arr.take k).map Prod.fst).Nodup := by
    intro k
    rw [List.map_take]
    exact hnd.sublist (List.take_sublist _ _)
  constructor
  · intro k
    constructor
    · intro hfin
      by_contra hnex
      have hexf : ∀ m, m ≤ (arr.take k).length →
          codeFastestExit ups ((arr.take k).take m) = false := by
        intro m hm
        have hmk : m ≤ k := by
          rw [List.length_take] at hm
          omega
        rw [List.take_take, min_eq_left hmk]
        cases hcd : codeFastestExit ups (arr.take m) with
        | false => rfl
        | true => exact absurd ⟨m, hmk, hcd⟩ hnex
      rw [runRace_char ups (arr.take k) (hbk k) (hndk k) hexf] at hfin
      simp at hfin
    · intro hexists
      have hex : ∃ m, m ≤ k ∧ codeFastestExit ups (arr.take m) = true :=
        hexists
      obtain ⟨hMk, hMcd⟩ := Nat.find_spec hex
      have hmin : ∀ m', m' < Nat.find hex →
          codeFastestExit ups (arr.take m') = false := by
        intro m' hm'
        have hnm := Nat.find_min hex hm'
        cases hcd' : codeFastestExit ups (arr.take m') with
        | false => rfl
        | true => exact absurd ⟨by omega, hcd'⟩ hnm
      have hMlen : Nat.find hex ≤ arr.length := by
        by_contra hgt
        push_neg at hgt
        have h1 : codeFastestExit ups (arr.take arr.length) = false :=
          hmin _ hgt
        rw [List.take_length] at h1
        rw [List.take_of_length_le (by omega)] at hMcd
        rw [hMcd] at h1
        exact absurd h1 (by simp)
      have hM0 : Nat.find hex ≠ 0 := by
        intro h0
        rw [h0, List.take_zero, codeFastestExit_nil] at hMcd
        exact absurd hMcd (by simp)
      obtain ⟨M', hM⟩ : ∃ M', Nat.find hex = M' + 1 :=
        ⟨Nat.find hex - 1, by omega⟩
      rw [hM] at hMk hMcd hMlen
      have hM'lt : M' < arr.length := by omega
      have hsplit : arr.take (M' + 1) = arr.take M' ++ [arr[M']] := by
        rw [List.take_succ, List.getElem?_eq_getElem hM'lt]
        rfl
      have hfinM : (runRace ups (arr.take (M' + 1))).finished = true := by
        have hbM : ∀ e ∈ arr.take M' ++ [arr[M']], e.1 < ups.length := by
          rw [← hsplit]
          exact hbk (M' + 1)
        have hndM : ((arr.take M' ++ [arr[M']]).map Prod.fst).Nodup := by
          rw [← hsplit]
          exact hndk (M' + 1)
        have hexM : ∀ m, m ≤ (arr.take M').length →
            codeFastestExit ups ((arr.take M').take m) = false := by
          intro m hm
          have hmM : m ≤ M' := by
            rw [List.length_take] at hm
            omega
          rw [List.take_take, min_eq_left hmM]
          exact hmin m (by omega)
        have hrun' := runRace_char ups (arr.take M') (hbk M') (hndk M') hexM
        have hstep : runRace ups (arr.take M' ++ [arr[M']]) =
            raceStep ups (runRace ups (arr.take M')) (arr[M']) := by
          unfold runRace
          rw [List.foldl_append]
          rfl
        rw [hsplit, hstep, hrun',
          raceStep_char ups (arr.take M') (arr[M']) hbM hndM]
        simp only []
        rw [← hsplit]
        exact hMcd
      have hext : arr.take k = arr.take (M' + 1) ++ (arr.take k).drop (M' + 1) := by
        have h1 : arr.take (M' + 1) = (arr.take k).take (M' + 1) := by
          rw [List.take_take, min_eq_left hMk]
        rw [h1, List.take_append_drop]
      rw [hext,
        show runRace ups (arr.take (M' + 1) ++ (arr.take k).drop (M' + 1)) =
            ((arr.take k).drop (M' + 1)).foldl (raceStep ups)
              (runRace ups (arr.take (M' + 1))) from by
          unfold runRace
          rw [List.foldl_append],
        foldl_raceStep_frozen ups _ _ hfinM]
      exact hfinM
  · intro k hfin
    conv_lhs => rw [show arr = arr.take k ++ arr.drop k from
      (List.take_append_drop k arr).symm]
    rw [show runRace ups (arr.take k ++ arr.drop k) =
          (arr.drop k).foldl (raceStep ups) (runRace ups (arr.take k)) from by
        unfold runRace
        rw [List.foldl_append],
      foldl_raceStep_frozen ups _ _ hfin]

/-- Witness for C8 (amended): on the concrete three-upstream race the
exit fires exactly at the third arrival, and the final message set is
the one at termination. -/
theorem c8_fastest_race_exit_witness :
    (runRace upsRace (arrRace.take 3)).finished = true
    ∧ (runRace upsRace arrRace).msgs = (runRace upsRace (arrRace.take 3)).msgs := by
  have h := c8_fastest_race_exit upsRace arrRace rfl (by decide) (by decide)
  have hfin : (runRace upsRace (arrRace.take 3)).finished = true :=
    (h.1 3).mpr ⟨3, Nat.le_refl 3, by decide⟩
  exact ⟨hfin, h.2 3 hfin⟩

end Nbdns
